import Mathlib

/-!
Verification development for the tabular dataset session model of
`excel_tool.py` (Rupjyoti's Excel Tool, single-file desktop app).

The shallow embedding models the data side of the program:

* `Value` — a scalar cell value as produced by `pd.read_excel`: a Python
  int, a float, a string, a Timestamp, or a missing marker (NaN).  Floats
  are restricted to integer-valued floats (the only ones the development
  ever renders); `pyStr (vFloat n)` is the exact Python `str()` rendering
  `"n.0"` for such floats.
* `Frame` — a pandas DataFrame: a list of column names and a list of rows.
* `colDType` — pandas dtype inference for a column (int64 / float64 /
  datetime64 / object).
* `compareMatched`, `only1`, `only2` — the comparison logic of
  `compare_and_export` (raw-value `pd.merge` with a trimmed-string
  fallback, and the trimmed-string unmatched sets).
* `removeDuplicatesByColumn` — `df.drop_duplicates(subset=[col])`.
* `lookupFind` — the Exact / Partial row lookup of `lookup_find`,
  including a regular-expression engine modelling the fragment of Python
  `re` exercised by `Series.str.contains(pat, case=False)`:
  literal characters, `.`, `*`, `+`, `?`, grouping `( )` and alternation
  `|`; other special characters are conservatively rejected by the parser.
* `doSave` — the cell-edit logic of `edit_selected_cell.do_save`.
* `saveMultipleSheets` — the export gateway `save_multiple_sheets`.
-/

namespace ExcelTool

/-- A scalar cell value as stored in a pandas DataFrame read from Excel.
`vFloat n` stands for the float with exact integer value `n` (the model
only needs floats whose `str()` form is `"n.0"`).  `vDate d` is an
abstract timestamp with ordinal `d`.  `vNaN` is the missing marker. -/
inductive Value where
  | vInt : Int → Value
  | vFloat : Int → Value
  | vStr : String → Value
  | vDate : Int → Value
  | vNaN : Value
deriving DecidableEq

/-- A row of a DataFrame: one value per column, positionally aligned
with the frame's column list. -/
abbrev Row := List Value

/-- A pandas DataFrame: ordered column names plus ordered rows. -/
structure Frame where
  cols : List String
  rows : List Row
deriving DecidableEq

/-- Python `str()` of a cell value, as applied by `Series.astype(str)`:
ints render as decimal, integer-valued floats as `"n.0"`, strings as
themselves, and NaN as the string `"nan"`.  Timestamps are rendered via
their abstract ordinal (never exercised by the claims). -/
def pyStr : Value → String
  | .vInt n => toString n
  | .vFloat n => toString n ++ ".0"
  | .vStr s => s
  | .vDate d => toString d
  | .vNaN => "nan"

/-- The ASCII whitespace characters stripped by Python `str.strip()`. -/
def isWS (c : Char) : Bool :=
  c == ' ' || c == '\t' || c == '\n' || c == '\r' || c == '\x0b' || c == '\x0c'

/-- Strip leading and trailing whitespace from a character list. -/
def stripChars (l : List Char) : List Char :=
  (((l.dropWhile isWS).reverse.dropWhile isWS)).reverse

/-- Python `str.strip()` on a string. -/
def pyStrip (s : String) : String := String.mk (stripChars s.data)

/-- Is the value a Python string? -/
def isStrV : Value → Bool
  | .vStr _ => true
  | _ => false

/-- Is the value a Python int? -/
def isIntV : Value → Bool
  | .vInt _ => true
  | _ => false

/-- Is the value numeric (int or float)? -/
def isNumV : Value → Bool
  | .vInt _ => true
  | .vFloat _ => true
  | _ => false

/-- Is the value a timestamp? -/
def isDateV : Value → Bool
  | .vDate _ => true
  | _ => false

/-- Is the value the missing marker? -/
def isNaNV : Value → Bool
  | .vNaN => true
  | _ => false

/-- Pandas column dtypes relevant to this program. -/
inductive DType where
  | int64 : DType
  | float64 : DType
  | datetime : DType
  | obj : DType
deriving DecidableEq

/-- Pandas dtype inference for a column of values, as performed by
`pd.read_excel`: any string makes the column `object`; an empty column is
`object`; all ints give `int64`; ints, floats and NaN mix to `float64`;
timestamps (possibly with missing entries) give `datetime64`; any other
mix is `object`. -/
def colDType (vs : List Value) : DType :=
  if vs.any isStrV then .obj
  else if vs.isEmpty then .obj
  else if vs.all isIntV then .int64
  else if vs.all (fun v => isNumV v || isNaNV v) then .float64
  else if vs.all (fun v => isDateV v || isNaNV v) then .datetime
  else .obj

/-- Is the dtype numeric, in the sense of `pd.api.types.is_numeric_dtype`? -/
def isNumericDType : DType → Bool
  | .int64 => true
  | .float64 => true
  | _ => false

/-- Can `pd.merge` join key columns of these two dtypes without raising?
Pandas raises (`You are trying to merge on object and int64 columns`, and
the analogous datetime mismatches) exactly when the two dtypes fall in
different classes; int64 and float64 merge fine with numeric casting. -/
def mergeCompatible (d1 d2 : DType) : Bool :=
  (d1 == .obj && d2 == .obj) ||
  (isNumericDType d1 && isNumericDType d2) ||
  (d1 == .datetime && d2 == .datetime)

/-- Value equality as used by pandas hash-based joins and
`drop_duplicates`: numbers compare numerically (so int 1 equals float
1.0), strings compare exactly, NaN keys are grouped together, and values
of different kinds never compare equal. -/
def valEq : Value → Value → Bool
  | .vInt n, .vInt m => n == m
  | .vInt n, .vFloat m => n == m
  | .vFloat n, .vInt m => n == m
  | .vFloat n, .vFloat m => n == m
  | .vStr s, .vStr t => s == t
  | .vDate d, .vDate e => d == e
  | .vNaN, .vNaN => true
  | _, _ => false

/-- Index of a column name in a column list (first occurrence; the list
length when absent). -/
def colIdx : List String → String → Nat
  | [], _ => 0
  | d :: ds, c => if d = c then 0 else colIdx ds c + 1

/-- Index of a column name within a frame. -/
def keyIdx (f : Frame) (c : String) : Nat := colIdx f.cols c

/-- The value of a row at a column index (missing marker when out of
range). -/
def keyOf (r : Row) (i : Nat) : Value := r.getD i Value.vNaN

/-- The values of a frame's column. -/
def colOf (f : Frame) (c : String) : List Value :=
  f.rows.map (fun r => keyOf r (keyIdx f c))

/-- The string-coerced, whitespace-trimmed key of a row, as computed by
`df[c].astype(str).fillna("").str.strip()` in `compare_and_export`
(`fillna` after `astype(str)` is a no-op: NaN already became `"nan"`). -/
def trimKey (f : Frame) (c : String) (r : Row) : String :=
  pyStrip (pyStr (keyOf r (keyIdx f c)))

/-- The trimmed-string key column `s1` (resp. `s2`) of
`compare_and_export`. -/
def trimKeys (f : Frame) (c : String) : List String :=
  f.rows.map (trimKey f c)

/-- Does the raw `pd.merge` of these two frames on these key columns
succeed (no dtype-mismatch exception)? -/
def mergeOk (A : Frame) (c1 : String) (B : Frame) (c2 : String) : Bool :=
  mergeCompatible (colDType (colOf A c1)) (colDType (colOf B c2))

/-- The row pairs produced by an inner join of the two row lists under a
key predicate: for every left row in order, all matching right rows in
order (pandas inner-merge row multiplicity and order). -/
def joinPairs (iA iB : Nat) (eq : Value → Value → Bool)
    (rowsA rowsB : List Row) : List (Row × Row) :=
  rowsA.flatMap (fun a =>
    (rowsB.filter (fun b => eq (keyOf a iA) (keyOf b iB))).map (fun b => (a, b)))

/-- The matched set of `compare_and_export`: the primary path is
`pd.merge(df1, df2, left_on=c1, right_on=c2, how="inner")`, joining on
raw key values; when that raises (incompatible dtypes), the fallback
joins on the precomputed trimmed-string keys `_cmp_key_`.  Each output
row holds all of the left row and all of the right row, modelled as the
pair. -/
def compareMatched (A : Frame) (c1 : String) (B : Frame) (c2 : String) :
    List (Row × Row) :=
  if mergeOk A c1 B c2 then
    joinPairs (keyIdx A c1) (keyIdx B c2) valEq A.rows B.rows
  else
    A.rows.flatMap (fun a =>
      (B.rows.filter (fun b => trimKey A c1 a == trimKey B c2 b)).map
        (fun b => (a, b)))

/-- `only1`: rows of the first frame whose trimmed-string key is not in
the set of the second frame's trimmed-string keys
(`df1.loc[~s1.isin(set(s2))]`). -/
def only1 (A : Frame) (c1 : String) (B : Frame) (c2 : String) : List Row :=
  A.rows.filter (fun a => !(trimKeys B c2).contains (trimKey A c1 a))

/-- `only2`: symmetric to `only1`. -/
def only2 (A : Frame) (c1 : String) (B : Frame) (c2 : String) : List Row :=
  B.rows.filter (fun b => !(trimKeys A c1).contains (trimKey B c2 b))

/-- The three sheets computed by `compare_and_export`: matched pairs,
rows only in file 1, rows only in file 2. -/
def compareAndExport (A : Frame) (c1 : String) (B : Frame) (c2 : String) :
    List (Row × Row) × List Row × List Row :=
  (compareMatched A c1 B c2, only1 A c1 B c2, only2 A c1 B c2)

/-- Row scan of `df.drop_duplicates(subset=[col], keep="first")`: a row
is kept when no already-seen key compares equal (pandas value equality)
to its key. -/
def dropDupRows (i : Nat) : List Row → List Value → List Row
  | [], _ => []
  | r :: rs, seen =>
    if seen.any (fun k => valEq k (keyOf r i)) then dropDupRows i rs seen
    else r :: dropDupRows i rs (keyOf r i :: seen)

/-- `remove_duplicates_by_column`: replace the rows by
`df.drop_duplicates(subset=[col]).reset_index(drop=True)`. -/
def removeDuplicatesByColumn (f : Frame) (c : String) : Frame :=
  { f with rows := dropDupRows (keyIdx f c) f.rows [] }

/-- Regular expressions over characters: the fragment of Python `re`
that this development models (empty language, empty string, single
character, wildcard, concatenation, alternation, Kleene star). -/
inductive RE where
  | nul : RE
  | eps : RE
  | chr : Char → RE
  | dot : RE
  | seq : RE → RE → RE
  | alt : RE → RE → RE
  | star : RE → RE
deriving DecidableEq

/-- Case-insensitive character comparison, as compiled by
`re.IGNORECASE` (the effect of `case=False` in `str.contains`). -/
def chEq (a b : Char) : Bool := a.toLower == b.toLower

/-- Does the regex accept the empty string? -/
def reNullable : RE → Bool
  | .nul => false
  | .eps => true
  | .chr _ => false
  | .dot => false
  | .seq a b => reNullable a && reNullable b
  | .alt a b => reNullable a || reNullable b
  | .star _ => true

/-- Brzozowski derivative of the regex by a character, with
case-insensitive character matching. -/
def reDeriv (r : RE) (c : Char) : RE :=
  match r with
  | .nul => .nul
  | .eps => .nul
  | .chr d => if chEq d c then .eps else .nul
  | .dot => .eps
  | .seq a b =>
    if reNullable a then .alt (.seq (reDeriv a c) b) (reDeriv b c)
    else .seq (reDeriv a c) b
  | .alt a b => .alt (reDeriv a c) (reDeriv b c)
  | .star a => .seq (reDeriv a c) (.star a)

/-- Does the regex match some initial segment of the character list? -/
def reMatchInit (r : RE) : List Char → Bool
  | [] => reNullable r
  | c :: cs => reNullable r || reMatchInit (reDeriv r c) cs

/-- Unanchored search, as performed by `re.search` inside
`str.contains`: does the regex match starting at some position? -/
def reSearch (r : RE) : List Char → Bool
  | [] => reMatchInit r []
  | c :: cs => reMatchInit r (c :: cs) || reSearch r cs

/-- The character `{` (written via its code point to keep the source
free of literal braces). -/
def lBrace : Char := Char.ofNat 123

/-- The character `}`. -/
def rBrace : Char := Char.ofNat 125

/-- Characters with special meaning (or conservatively treated as
unsupported) in the modelled `re` fragment.  `[`, `]`, the braces, `^`,
`$` and `\` are outside the modelled fragment: patterns using them are
rejected by the parser, which for `[`, `^`, `$` and `\`-classes
over-approximates Python (Python would accept some of them); no theorem
below exercises those characters. -/
def isMetaChar (c : Char) : Bool :=
  c == '.' || c == '*' || c == '+' || c == '?' || c == '(' || c == ')' ||
  c == '|' || c == '[' || c == ']' || c == lBrace || c == rBrace ||
  c == '^' || c == '$' || c == '\\'

/-- Drop the lazy-quantifier marker `?` following `*`, `+` or `?`
(`a*?` matches the same language as `a*`; `.str.contains` only needs
the boolean). -/
def dropLazy : List Char → List Char
  | c :: rest => if c = '?' then rest else c :: rest
  | [] => []

/-- Apply an optional postfix quantifier to a parsed atom. -/
def applyQuant (r : RE) (l : List Char) : RE × List Char :=
  match l with
  | [] => (r, [])
  | c :: rest =>
    if c = '*' then (.star r, dropLazy rest)
    else if c = '+' then (.seq r (.star r), dropLazy rest)
    else if c = '?' then (.alt r .eps, dropLazy rest)
    else (r, c :: rest)

mutual

/-- Parse a single atom: a group, the wildcard, or a literal
character. -/
def parseAtom (fuel : Nat) (l : List Char) : Option (RE × List Char) :=
  match fuel, l with
  | 0, _ => none
  | _, [] => none
  | fuel + 1, c :: rest =>
    if c = '(' then
      match parseAlt fuel rest with
      | some (r, rest1) =>
        match rest1 with
        | d :: rest2 => if d = ')' then some (r, rest2) else none
        | [] => none
      | none => none
    else if c = '.' then some (.dot, rest)
    else if isMetaChar c then none
    else some (.chr c, rest)

/-- Parse a concatenation of postfixed atoms, stopping at `)` or `|`
or the end of input. -/
def parseCat (fuel : Nat) (l : List Char) : Option (RE × List Char) :=
  match fuel, l with
  | 0, _ => none
  | _, [] => some (.eps, [])
  | fuel + 1, c :: rest =>
    if c = ')' ∨ c = '|' then some (.eps, c :: rest)
    else
      match parseAtom fuel (c :: rest) with
      | none => none
      | some (r, rest1) =>
        let p := applyQuant r rest1
        match parseCat fuel p.2 with
        | some (r2, rest2) => some (.seq p.1 r2, rest2)
        | none => none

/-- Parse an alternation of concatenations. -/
def parseAlt (fuel : Nat) (l : List Char) : Option (RE × List Char) :=
  match fuel with
  | 0 => none
  | fuel + 1 =>
    match parseCat fuel l with
    | none => none
    | some (r, rest) =>
      match rest with
      | c :: rest1 =>
        if c = '|' then
          match parseAlt fuel rest1 with
          | some (r2, rest2) => some (.alt r r2, rest2)
          | none => none
        else some (r, c :: rest1)
      | [] => some (r, [])

end

/-- Compile a Python pattern string to a regex of the modelled
fragment; `none` models `re.error` (and conservatively covers the
unsupported special characters). -/
def parseRegex (s : String) : Option RE :=
  match parseAlt (2 * s.data.length + 4) s.data with
  | some (r, []) => some r
  | _ => none

/-- The lookup match mode chosen in the Lookup tab. -/
inductive MatchMode where
  | exact : MatchMode
  | substr : MatchMode
deriving DecidableEq

/-- `lookup_find` on a loaded frame: in Exact mode a row matches when
its string-coerced, trimmed cell equals the trimmed query
(`df[col].astype(str).str.strip() == str(val).strip()`); in Partial
mode when the regex `str(val)` case-insensitively matches somewhere in
the string-coerced cell (`df[col].astype(str).str.contains(str(val),
case=False, na=False)`; `astype(str)` has already turned NaN into
`"nan"`, so `na=False` never fires).  `none` models the `re.error`
escaping `lookup_find` on an invalid pattern. -/
def lookupFind (f : Frame) (c : String) (val : String) (m : MatchMode) :
    Option (List Row) :=
  let i := keyIdx f c
  match m with
  | .exact =>
    some (f.rows.filter (fun r => pyStrip (pyStr (keyOf r i)) == pyStrip val))
  | .substr =>
    match parseRegex val with
    | none => none
    | some re => some (f.rows.filter (fun r => reSearch re (pyStr (keyOf r i)).data))

/-- Literal case-insensitive match of a pattern against an initial
segment of a text (reference semantics for a metacharacter-free
pattern). -/
def ciInit : List Char → List Char → Bool
  | [], _ => true
  | _ :: _, [] => false
  | c :: cs, d :: ds => chEq c d && ciInit cs ds

/-- Literal case-insensitive substring containment (reference
semantics for a metacharacter-free pattern). -/
def ciContains (q : List Char) : List Char → Bool
  | [] => ciInit q []
  | c :: cs => ciInit q (c :: cs) || ciContains q cs

/-- Set a single cell of a frame at a row index and column index,
leaving everything else unchanged (the effect of `df.at[row, col] = v`
at an in-range address). -/
def setAt (f : Frame) (rowIdx : Nat) (i : Nat) (v : Value) : Frame :=
  { f with rows := f.rows.set rowIdx ((f.rows.getD rowIdx []).set i v) }

/-- Read a single cell of a frame at a row index and column index. -/
def cellAt (f : Frame) (rowIdx : Nat) (i : Nat) : Value :=
  keyOf (f.rows.getD rowIdx []) i

/-- The save action of the cell-edit dialog (`edit_selected_cell`,
inner `do_save`), parameterised by the external parsers `pd.to_numeric`
and `pd.to_datetime` (`none` models a parse exception): a numeric
column parses the text numerically, a datetime column parses it as a
date, any other column (and any parse failure, via the `except` arm)
stores the literal text. -/
def doSave (parseNum parseDate : String → Option Value) (f : Frame)
    (rowIdx : Nat) (c : String) (val : String) : Frame :=
  let d := colDType (colOf f c)
  let newv :=
    if isNumericDType d then (parseNum val).getD (Value.vStr val)
    else if d = DType.datetime then (parseDate val).getD (Value.vStr val)
    else Value.vStr val
  setAt f rowIdx (keyIdx f c) newv

/-- Python string slicing `s[:n]` (by code point). -/
def pyTake (n : Nat) (s : String) : String := String.mk (s.data.take n)

/-- Coerce every cell of a frame to its string form, as the retry arm
of `save_multiple_sheets` does with `df2[col] = df2[col].astype(str)`
for every column. -/
def coerceAllStr (f : Frame) : Frame :=
  { f with rows := f.rows.map (fun r => r.map (fun v => Value.vStr (pyStr v))) }

/-- `save_multiple_sheets`, parameterised by the failure behaviour of
the external `df.to_excel` call (`fails df = true` models the per-sheet
exception).  Returns the list of attempted sheet writes in order (name
actually passed to `to_excel`, frame actually passed) and whether the
whole save succeeded: each sheet name is truncated to 31 characters;
a failing sheet is retried once with every cell coerced to text; if the
retry also fails the exception aborts the remaining sheets and the
function returns failure. -/
def saveMultipleSheets (fails : Frame → Bool) :
    List (String × Frame) → List (String × Frame) × Bool
  | [] => ([], true)
  | (n, f) :: rest =>
    let safe := pyTake 31 n
    if fails f then
      if fails (coerceAllStr f) then ([(safe, f), (safe, coerceAllStr f)], false)
      else
        let r := saveMultipleSheets fails rest
        ((safe, f) :: (safe, coerceAllStr f) :: r.1, r.2)
    else
      let r := saveMultipleSheets fails rest
      ((safe, f) :: r.1, r.2)

/-- Modelled from the spec (§4.3): the matched set as the spec words
it — one output pair for every row pair whose key values, each coerced
to string and trimmed of surrounding whitespace, are equal.  Used as the
reference point for the refinement claims about `compareMatched`. -/
def matchedSpecTrimmed (A : Frame) (c1 : String) (B : Frame) (c2 : String) :
    List (Row × Row) :=
  A.rows.flatMap (fun a =>
    (B.rows.filter (fun b => trimKey A c1 a == trimKey B c2 b)).map
      (fun b => (a, b)))

/-- Modelled from the spec (§4.2): dedupe keeping the first row per
distinct string-coerced key, comparing keys by exact string equality.
Reference point for the claim about `removeDuplicatesByColumn`. -/
def dropDupRowsStr (i : Nat) : List Row → List String → List Row
  | [], _ => []
  | r :: rs, seen =>
    if seen.contains (pyStr (keyOf r i)) then dropDupRowsStr i rs seen
    else r :: dropDupRowsStr i rs (pyStr (keyOf r i) :: seen)

/-- Modelled from the spec (§4.2): the string-keyed dedupe applied to a
frame. -/
def dedupeByStringKeySpec (f : Frame) (c : String) : Frame :=
  { f with rows := dropDupRowsStr (keyIdx f c) f.rows [] }

/-- Declarative first-keeper dedupe: keep the head row and drop every
later row whose key compares equal to it, recursively.  This is the
plain-language reading of "keeps the first row in original order for
each distinct key value". -/
def keepFirsts (i : Nat) : List Row → List Row
  | [] => []
  | r :: rs =>
    r :: keepFirsts i (rs.filter (fun s => !valEq (keyOf r i) (keyOf s i)))
termination_by l => l.length
decreasing_by
  simp only [List.length_cons]
  exact Nat.lt_succ_of_le (List.length_filter_le _ _)

/-- The trimmed-string left keys of the matched set. -/
def matchedKeys1 (A : Frame) (c1 : String) (B : Frame) (c2 : String) :
    List String :=
  (compareMatched A c1 B c2).map (fun p => trimKey A c1 p.1)

/-- The trimmed-string right keys of the matched set. -/
def matchedKeys2 (A : Frame) (c1 : String) (B : Frame) (c2 : String) :
    List String :=
  (compareMatched A c1 B c2).map (fun p => trimKey B c2 p.2)

/-- The rows of the first frame whose trimmed-string key appears among
the matched set's left keys. -/
def matchedPart1 (A : Frame) (c1 : String) (B : Frame) (c2 : String) :
    List Row :=
  A.rows.filter (fun a => (matchedKeys1 A c1 B c2).contains (trimKey A c1 a))

/-- The rows of the second frame whose trimmed-string key appears among
the matched set's right keys. -/
def matchedPart2 (A : Frame) (c1 : String) (B : Frame) (c2 : String) :
    List Row :=
  B.rows.filter (fun b => (matchedKeys2 A c1 B c2).contains (trimKey B c2 b))

/-- Number of rows of the frame whose key cell is the given string. -/
def countKeyStr (f : Frame) (c : String) (v : String) : Nat :=
  f.rows.countP (fun r => keyOf r (keyIdx f c) == Value.vStr v)

/-- The string-coerced key column of a frame. -/
def keyStrs (f : Frame) (c : String) : List String :=
  f.rows.map (fun r => pyStr (keyOf r (keyIdx f c)))

/-- Do all key cells of the frame's key column hold strings? -/
def allStrKeys (f : Frame) (c : String) : Bool :=
  f.rows.all (fun r => isStrV (keyOf r (keyIdx f c)))

/-- Do all key cells hold strings unaffected by whitespace trimming? -/
def allTrimStrKeys (f : Frame) (c : String) : Bool :=
  f.rows.all (fun r =>
    isStrV (keyOf r (keyIdx f c)) &&
      (pyStrip (pyStr (keyOf r (keyIdx f c))) == pyStr (keyOf r (keyIdx f c))))

/-- The literal regex for a character list. -/
def litRE : List Char → RE
  | [] => .eps
  | c :: cs => .seq (.chr c) (litRE cs)

/-- Is the string free of every character the regex parser treats as
special? -/
def noMetaStr (q : String) : Bool := q.data.all (fun c => !isMetaChar c)

/-- One-row frames with numerically equal but differently rendered keys
(Python int 1 versus float 1.0). -/
def cA1 : Frame := ⟨["k"], [[Value.vInt 1]]⟩

/-- Counterpart of `cA1` holding the float key. -/
def cB1 : Frame := ⟨["k"], [[Value.vFloat 1]]⟩

/-- One-row frame whose string key carries a trailing space. -/
def cA2 : Frame := ⟨["k"], [[Value.vStr "x "]]⟩

/-- Counterpart of `cA2` with the trimmed key. -/
def cB2 : Frame := ⟨["k"], [[Value.vStr "x"]]⟩

/-- The spec's compare scenario, left table. -/
def cA3 : Frame := ⟨["k", "v"], [[Value.vStr "x", Value.vInt 1],
                                 [Value.vStr "y", Value.vInt 2]]⟩

/-- The spec's compare scenario, right table. -/
def cB3 : Frame := ⟨["k", "w"], [[Value.vStr "x", Value.vInt 10],
                                 [Value.vStr "x", Value.vInt 11]]⟩

/-- A frame whose key column mixes the Python int 1 and the string
`"1"` (an `object` column, as read from a sheet with a numeric and a
text cell). -/
def cT4 : Frame := ⟨["id", "name"], [[Value.vInt 1, Value.vStr "a"],
                                     [Value.vStr "1", Value.vStr "b"]]⟩

/-- A frame whose key column holds the Python int 1 and the string
`"1"` (an `object` column). -/
def cA5 : Frame := ⟨["k"], [[Value.vInt 1], [Value.vStr "1"]]⟩

/-- A one-row frame whose key column holds the Python int 1 (an
`int64` column). -/
def cB5 : Frame := ⟨["k"], [[Value.vInt 1]]⟩

/-- A one-row frame with the plain string cell `"x"`. -/
def cT6 : Frame := ⟨["c"], [[Value.vStr "x"]]⟩

/-- A frame with a cell matching the pattern `a.c` as a regex but not
as a literal substring, and a cell equal to the pattern. -/
def cT9 : Frame := ⟨["c"], [[Value.vStr "abc"], [Value.vStr "a.c"]]⟩

/-- A one-row frame whose only cell is missing. -/
def cT10 : Frame := ⟨["c"], [[Value.vNaN]]⟩

/-- A two-row frame with a numeric and a text column (for the cell-edit
witness). -/
def cF7 : Frame := ⟨["n", "t"], [[Value.vInt 1, Value.vStr "a"],
                                 [Value.vInt 2, Value.vStr "b"]]⟩

/-- The writes `save_multiple_sheets` performs for one sheet: the
truncated name with the original frame, followed — exactly when the
first write fails — by one retry with every cell coerced to text. -/
def sheetBlock (fails : Frame → Bool) (s : String × Frame) :
    List (String × Frame) :=
  if fails s.2 then
    [(pyTake 31 s.1, s.2), (pyTake 31 s.1, coerceAllStr s.2)]
  else [(pyTake 31 s.1, s.2)]

/-! ## Lemmas about the dedupe scan -/

theorem dropDupRows_sublist (i : Nat) :
    ∀ (l : List Row) (seen : List Value), (dropDupRows i l seen).Sublist l := by
  intro l
  induction l with
  | nil => intro seen; simp [dropDupRows]
  | cons r rs ih =>
    intro seen
    by_cases h : seen.any (fun k => valEq k (keyOf r i)) = true
    · simpa [dropDupRows, h] using (ih seen).cons r
    · simpa [dropDupRows, h] using (ih (keyOf r i :: seen)).cons₂ r

theorem dropDupRows_keys_clean (i : Nat) :
    ∀ (l : List Row) (seen : List Value) (r : Row),
      r ∈ dropDupRows i l seen → ∀ k ∈ seen, valEq k (keyOf r i) = false := by
  intro l
  induction l with
  | nil => intro seen r hr; simp [dropDupRows] at hr
  | cons r0 rs ih =>
    intro seen r hr k hk
    by_cases h : seen.any (fun k => valEq k (keyOf r0 i)) = true
    · exact ih seen r (by simpa [dropDupRows, h] using hr) k hk
    · rw [dropDupRows, if_neg h] at hr
      rcases List.mem_cons.mp hr with rfl | hr1
      · have := List.any_eq_false.mp (Bool.not_eq_true _ ▸ h) k hk
        simpa using this
      · exact ih (keyOf r0 i :: seen) r hr1 k (List.mem_cons_of_mem _ hk)

theorem dropDupRows_pairwise (i : Nat) :
    ∀ (l : List Row) (seen : List Value),
      List.Pairwise
        (fun r s => valEq (keyOf r i) (keyOf s i) = false)
        (dropDupRows i l seen) := by
  intro l
  induction l with
  | nil => intro seen; simp [dropDupRows]
  | cons r0 rs ih =>
    intro seen
    by_cases h : seen.any (fun k => valEq k (keyOf r0 i)) = true
    · simpa [dropDupRows, h] using ih seen
    · rw [dropDupRows, if_neg h]
      refine List.Pairwise.cons ?_ (ih (keyOf r0 i :: seen))
      intro s hs
      exact dropDupRows_keys_clean i rs (keyOf r0 i :: seen) s hs (keyOf r0 i)
        (List.mem_cons_self _ _)

theorem dropDupRows_id_of_pairwise (i : Nat) :
    ∀ (l : List Row) (seen : List Value),
      List.Pairwise (fun r s => valEq (keyOf r i) (keyOf s i) = false) l →
      (∀ r ∈ l, ∀ k ∈ seen, valEq k (keyOf r i) = false) →
      dropDupRows i l seen = l := by
  intro l
  induction l with
  | nil => intro seen _ _; rfl
  | cons r0 rs ih =>
    intro seen hp hclean
    have h0 : seen.any (fun k => valEq k (keyOf r0 i)) = false :=
      List.any_eq_false.mpr (fun k hk => by
        simp [hclean r0 (List.mem_cons_self _ _) k hk])
    rw [dropDupRows, if_neg (by simp [h0])]
    congr 1
    refine ih (keyOf r0 i :: seen) (List.Pairwise.sublist (List.sublist_cons_self r0 rs) hp) ?_
    intro r hr k hk
    rcases List.mem_cons.mp hk with rfl | hk1
    · exact (List.pairwise_cons.mp hp).1 r hr
    · exact hclean r (List.mem_cons_of_mem _ hr) k hk1

theorem dropDupRows_eq_keepFirsts (i : Nat) :
    ∀ (l : List Row) (seen : List Value),
      dropDupRows i l seen =
        keepFirsts i (l.filter (fun r => !seen.any (fun k => valEq k (keyOf r i)))) := by
  intro l
  induction l with
  | nil => intro seen; simp [dropDupRows, keepFirsts]
  | cons r0 rs ih =>
    intro seen
    by_cases h : seen.any (fun k => valEq k (keyOf r0 i)) = true
    · rw [dropDupRows, if_pos h, List.filter_cons, if_neg (by simp [h])]
      exact ih seen
    · rw [dropDupRows, if_neg h, List.filter_cons,
        if_pos (by simp [Bool.not_eq_true _ ▸ h]), keepFirsts,
        List.filter_filter, ih (keyOf r0 i :: seen)]
      refine congrArg (fun t => r0 :: keepFirsts i t) (List.filter_congr ?_)
      intro r _
      simp [List.any_cons, Bool.not_or, Bool.and_comm]

/-! ## Claims about dedupe -/

/-- C4, counterexample: `remove_duplicates_by_column` does not compare
keys by their string coercion.  On a key column holding the Python int
`1` and the string `"1"` the code keeps both rows (pandas value
equality), while the claim's string-coerced comparison would keep only
the first. -/
theorem c4_counterexample :
    (removeDuplicatesByColumn cT4 "id").rows = cT4.rows ∧
    (dedupeByStringKeySpec cT4 "id").rows = [[Value.vInt 1, Value.vStr "a"]] := by
  constructor <;> rfl

/-- C4, amended: for every table and key column, dedupe keeps the first
row in original order for each distinct key value under pandas value
equality (numbers compare numerically, strings exactly, missing equals
missing) — not under string coercion; retained rows keep their original
relative order, and the removed count is the difference of the row
counts. -/
theorem c4_amended (f : Frame) (c : String) :
    (removeDuplicatesByColumn f c).rows = keepFirsts (keyIdx f c) f.rows ∧
    (removeDuplicatesByColumn f c).rows.Sublist f.rows ∧
    (removeDuplicatesByColumn f c).rows.length +
        (f.rows.length - (removeDuplicatesByColumn f c).rows.length) =
      f.rows.length := by
  refine ⟨?_, ?_, ?_⟩
  · show dropDupRows (keyIdx f c) f.rows [] = _
    rw [dropDupRows_eq_keepFirsts]
    congr 1
    simp
  · exact dropDupRows_sublist _ _ _
  · exact Nat.add_sub_cancel' ((dropDupRows_sublist _ _ _).length_le)

/-- C5: dedupe is idempotent, never grows the table, leaves the
retained key values pairwise distinct (under the value equality the
code uses), and returns a sublist of the original rows (original
relative order). -/
theorem c5_dedupe_algebra (f : Frame) (c : String) :
    removeDuplicatesByColumn (removeDuplicatesByColumn f c) c =
        removeDuplicatesByColumn f c ∧
    (removeDuplicatesByColumn f c).rows.length ≤ f.rows.length ∧
    List.Pairwise
        (fun r s => valEq (keyOf r (keyIdx f c)) (keyOf s (keyIdx f c)) = false)
        (removeDuplicatesByColumn f c).rows ∧
    (removeDuplicatesByColumn f c).rows.Sublist f.rows := by
  refine ⟨?_, (dropDupRows_sublist _ _ _).length_le, dropDupRows_pairwise _ _ _,
    dropDupRows_sublist _ _ _⟩
  show Frame.mk _ _ = Frame.mk _ _
  congr 1
  exact dropDupRows_id_of_pairwise _ _ _ (dropDupRows_pairwise _ _ _)
    (fun r _ k hk => by simp at hk)

/-! ## Closed refutations and the regex-semantics claim -/

/-- C1, counterexample: the matched set is not computed by
trimmed-string key comparison.  With an int-keyed row `1` against a
float-keyed row `1.0`, the raw merge matches them numerically and emits
one matched row, even though their trimmed string renderings `"1"` and
`"1.0"` differ — the claim predicts no matched row. -/
theorem c1_counterexample :
    compareMatched cA1 "k" cB1 "k" = [([Value.vInt 1], [Value.vFloat 1])] ∧
    matchedSpecTrimmed cA1 "k" cB1 "k" = [] := by
  constructor <;> rfl

/-- C2, counterexample: the compare result does not partition table A.
With A's key `"x "` (trailing space) and B's key `"x"`, the raw merge
matches nothing, yet the trimmed keys agree, so `only1` is also empty:
A's row lands in neither part and the union cannot reconstruct A. -/
theorem c2_counterexample :
    ¬ List.Perm (only1 cA2 "k" cB2 "k" ++ matchedPart1 cA2 "k" cB2 "k")
        cA2.rows := by
  decide

/-- C6, counterexample: Exact matches are not always Partial matches.
The query `" x"` trims to `"x"` and so Exact-matches the cell `"x"`,
but Partial performs no trimming: the pattern `" x"` does not occur in
`"x"`, so the Partial result is empty. -/
theorem c6_counterexample :
    lookupFind cT6 "c" " x" MatchMode.exact = some [[Value.vStr "x"]] ∧
    lookupFind cT6 "c" " x" MatchMode.substr = some [] := by
  constructor <;> rfl

/-- C9: Partial lookup interprets the query as a regular expression,
not a literal substring.  The query `"a.c"` matches both `"abc"` (the
dot is a wildcard) and `"a.c"`, while literal case-insensitive
substring matching returns only `"a.c"`; and the unbalanced pattern
`"("` makes the lookup raise instead of returning a result. -/
theorem c9_regex_semantics :
    lookupFind cT9 "c" "a.c" MatchMode.substr =
        some [[Value.vStr "abc"], [Value.vStr "a.c"]] ∧
    cT9.rows.filter
        (fun r => ciContains "a.c".data (pyStr (keyOf r (keyIdx cT9 "c"))).data) =
      [[Value.vStr "a.c"]] ∧
    lookupFind cT9 "c" "(" MatchMode.substr = none := by
  refine ⟨?_, ?_, ?_⟩ <;> rfl

/-- C10, counterexample: missing cells can match in Partial mode as
well.  `astype(str)` turns the missing cell into the string `"nan"`
before the containment test, so the Partial query `"nan"` returns the
missing-valued row — the claim asserts Partial never matches missing
cells. -/
theorem c10_counterexample :
    lookupFind cT10 "c" "nan" MatchMode.substr = some [[Value.vNaN]] := by
  rfl

/-! ## Lemmas about the raw inner join -/

theorem joinPairs_cons (iA iB : Nat) (eq : Value → Value → Bool) (a : Row)
    (as rowsB : List Row) :
    joinPairs iA iB eq (a :: as) rowsB =
      (rowsB.filter (fun b => eq (keyOf a iA) (keyOf b iB))).map (fun b => (a, b)) ++
        joinPairs iA iB eq as rowsB := by
  simp [joinPairs]

theorem mem_joinPairs (iA iB : Nat) (eq : Value → Value → Bool)
    (rowsA rowsB : List Row) (p : Row × Row) :
    p ∈ joinPairs iA iB eq rowsA rowsB ↔
      p.1 ∈ rowsA ∧ p.2 ∈ rowsB ∧ eq (keyOf p.1 iA) (keyOf p.2 iB) = true := by
  obtain ⟨a, b⟩ := p
  simp only [joinPairs, List.mem_flatMap, List.mem_map, List.mem_filter,
    Prod.mk.injEq]
  constructor
  · rintro ⟨a1, ha1, b1, ⟨hb1, heq⟩, rfl, rfl⟩
    exact ⟨ha1, hb1, heq⟩
  · rintro ⟨ha, hb, heq⟩
    exact ⟨a, ha, b, ⟨hb, heq⟩, rfl, rfl⟩

theorem colDType_obj_of_allStr (vs : List Value)
    (h : ∀ v ∈ vs, isStrV v = true) : colDType vs = DType.obj := by
  cases vs with
  | nil => simp [colDType]
  | cons v vs =>
    have hv : (v :: vs).any isStrV = true := by
      simp [List.any_cons, h v (List.mem_cons_self _ _)]
    simp [colDType, hv]

theorem allStrKeys_key (f : Frame) (c : String) (h : allStrKeys f c = true) :
    ∀ r ∈ f.rows, ∃ s, keyOf r (keyIdx f c) = Value.vStr s := by
  intro r hr
  have := List.all_eq_true.mp h r hr
  cases hk : keyOf r (keyIdx f c) <;> simp [hk, isStrV] at this ⊢

theorem mergeOk_of_strKeys (A : Frame) (c1 : String) (B : Frame) (c2 : String)
    (hA : allStrKeys A c1 = true) (hB : allStrKeys B c2 = true) :
    mergeOk A c1 B c2 = true := by
  have h1 : colDType (colOf A c1) = DType.obj := by
    refine colDType_obj_of_allStr _ ?_
    intro v hv
    obtain ⟨r, hr, rfl⟩ := List.mem_map.mp hv
    exact List.all_eq_true.mp hA r hr
  have h2 : colDType (colOf B c2) = DType.obj := by
    refine colDType_obj_of_allStr _ ?_
    intro v hv
    obtain ⟨r, hr, rfl⟩ := List.mem_map.mp hv
    exact List.all_eq_true.mp hB r hr
  simp [mergeOk, h1, h2, mergeCompatible]

theorem vStr_beq (s v : String) :
    (Value.vStr s == Value.vStr v) = (s == v) := by
  by_cases h : s = v <;> simp [h]

theorem strBeqComm (s t : String) : (s == t) = (t == s) := by
  by_cases h : s = t
  · subst h; rfl
  · rw [beq_eq_false_iff_ne.mpr h, beq_eq_false_iff_ne.mpr (fun e => h e.symm)]

/-! ## Claim C1, amended -/

/-- C1, amended: the matched set is computed by the raw-value inner
merge whenever the two key columns' dtypes are mergeable — keys match by
pandas value equality, so an int key and a numerically equal float key
(1 versus 1.0) DO produce a matched row; only when the raw merge raises
(mixed object and non-object dtypes) is the matched set computed from
string-coerced, whitespace-trimmed keys as the claim describes. -/
theorem c1_amended (A : Frame) (c1 : String) (B : Frame) (c2 : String) :
    (mergeOk A c1 B c2 = true →
      ∀ p : Row × Row,
        p ∈ compareMatched A c1 B c2 ↔
          p.1 ∈ A.rows ∧ p.2 ∈ B.rows ∧
            valEq (keyOf p.1 (keyIdx A c1)) (keyOf p.2 (keyIdx B c2)) = true) ∧
    (mergeOk A c1 B c2 = false →
      compareMatched A c1 B c2 = matchedSpecTrimmed A c1 B c2) ∧
    (∀ n : Int, valEq (Value.vInt n) (Value.vFloat n) = true) := by
  refine ⟨?_, ?_, ?_⟩
  · intro hok p
    rw [compareMatched, if_pos hok]
    exact mem_joinPairs _ _ _ _ _ p
  · intro hbad
    rw [compareMatched,
      if_neg (fun hcontra => by rw [hbad] at hcontra; exact absurd hcontra (by decide))]
    rfl
  · intro n
    simp [valEq]

/-- Witness for `c1_amended`: the numeric frames of the counterexample
satisfy the mergeable-dtypes hypothesis, and the characterization holds
there for the concrete matched pair. -/
theorem c1_amended_witness :
    mergeOk cA1 "k" cB1 "k" = true ∧
    (([Value.vInt 1], ([Value.vFloat 1] : Row)) ∈ compareMatched cA1 "k" cB1 "k" ↔
      ([Value.vInt 1] : Row) ∈ cA1.rows ∧ ([Value.vFloat 1] : Row) ∈ cB1.rows ∧
        valEq (keyOf [Value.vInt 1] (keyIdx cA1 "k"))
            (keyOf [Value.vFloat 1] (keyIdx cB1 "k")) = true) :=
  ⟨by decide,
    (c1_amended cA1 "k" cB1 "k").1 (by decide)
      ([Value.vInt 1], [Value.vFloat 1])⟩

/-! ## Claim C3: inner-join multiplicities -/

theorem joinPairs_countP (iA iB : Nat) (rowsB : List Row) (v : String)
    (hB : ∀ b ∈ rowsB, ∃ t, keyOf b iB = Value.vStr t) :
    ∀ rowsA, (∀ a ∈ rowsA, ∃ s, keyOf a iA = Value.vStr s) →
      (joinPairs iA iB valEq rowsA rowsB).countP
          (fun p => keyOf p.1 iA == Value.vStr v) =
        rowsA.countP (fun a => keyOf a iA == Value.vStr v) *
          rowsB.countP (fun b => keyOf b iB == Value.vStr v) := by
  intro rowsA
  induction rowsA with
  | nil => intro _; simp [joinPairs]
  | cons a as ih =>
    intro hA
    obtain ⟨s, hs⟩ := hA a (List.mem_cons_self _ _)
    rw [joinPairs_cons, List.countP_append, List.countP_map,
      ih (fun r hr => hA r (List.mem_cons_of_mem _ hr)), List.countP_cons]
    by_cases hv : s = v
    · subst hv
      have hconst :
          ((fun p : Row × Row => keyOf p.1 iA == Value.vStr s) ∘ fun b => (a, b)) =
            fun _ : Row => true := by
        funext b
        simp [Function.comp, hs]
      rw [hconst, List.countP_true]
      have hfilter :
          (rowsB.filter (fun b => valEq (keyOf a iA) (keyOf b iB))).length =
            rowsB.countP (fun b => keyOf b iB == Value.vStr s) := by
        rw [← List.countP_eq_length_filter]
        refine List.countP_congr ?_
        intro b hb
        obtain ⟨t, ht⟩ := hB b hb
        rw [hs, ht, vStr_beq]
        simp only [valEq]
        rw [strBeqComm]
      rw [hfilter]
      have hsa : (keyOf a iA == Value.vStr s) = true := by rw [hs]; simp
      rw [hsa]
      simp [Nat.add_mul, Nat.add_comm]
    · have hconst :
          ((fun p : Row × Row => keyOf p.1 iA == Value.vStr v) ∘ fun b => (a, b)) =
            fun _ : Row => false := by
        funext b
        simp [Function.comp, hs, hv]
      rw [hconst, List.countP_false]
      have hsa : (keyOf a iA == Value.vStr v) = false := by
        rw [hs, vStr_beq]
        exact beq_eq_false_iff_ne.mpr hv
      rw [hsa]
      simp

theorem joinPairs_length (iA iB : Nat) (eq : Value → Value → Bool)
    (rowsB : List Row) :
    ∀ rowsA, (joinPairs iA iB eq rowsA rowsB).length =
      (rowsA.map (fun a =>
        rowsB.countP (fun b => eq (keyOf a iA) (keyOf b iB)))).sum := by
  intro rowsA
  induction rowsA with
  | nil => simp [joinPairs]
  | cons a as ih =>
    rw [joinPairs_cons, List.length_append, List.length_map, ih,
      ← List.countP_eq_length_filter, List.map_cons, List.sum_cons]

/-- C3, counterexample: the k×m property does not hold for every pair
of tables.  A's `object` key column holds the Python int `1` and the
string `"1"`; B's `int64` key column holds the int `1`.  These columns
carry exactly two distinct key values, and the sum of k×m over them is
1×1 + 1×0 = 1 — yet compare emits 2 matched rows, because the raw
merge raises on the object/int64 dtype mix and the trimmed-string
fallback pairs both A rows (each stringifying to `"1"`) with B's row. -/
theorem c3_counterexample :
    mergeOk cA5 "k" cB5 "k" = false ∧
    (compareMatched cA5 "k" cB5 "k").length = 2 ∧
    cA5.rows.countP (fun r => valEq (keyOf r (keyIdx cA5 "k")) (Value.vInt 1)) *
          cB5.rows.countP (fun r => valEq (keyOf r (keyIdx cB5 "k")) (Value.vInt 1)) +
        cA5.rows.countP (fun r => valEq (keyOf r (keyIdx cA5 "k")) (Value.vStr "1")) *
          cB5.rows.countP (fun r => valEq (keyOf r (keyIdx cB5 "k")) (Value.vStr "1")) =
      1 := by
  refine ⟨?_, ?_, ?_⟩ <;> decide

/-- C3, amended: on string-keyed tables — where the raw merge succeeds
and joins by string equality — the comparison is a full inner
equi-join: for every key value `v`, the number of matched rows whose
left key is `v` equals (occurrences of `v` in A's key column) ×
(occurrences of `v` in B's key column), and the total matched-row count
is the sum of these products over the distinct keys.  On mixed-dtype
tables the merge raises and the trimmed-string fallback can emit more
rows than any per-key-value counting predicts (see the
counterexample). -/
theorem c3_inner_join_counts (A : Frame) (c1 : String) (B : Frame) (c2 : String)
    (hA : allStrKeys A c1 = true) (hB : allStrKeys B c2 = true) :
    (∀ v : String,
      (compareMatched A c1 B c2).countP
          (fun p => keyOf p.1 (keyIdx A c1) == Value.vStr v) =
        countKeyStr A c1 v * countKeyStr B c2 v) ∧
    (compareMatched A c1 B c2).length =
      ∑ v ∈ (keyStrs A c1).toFinset, countKeyStr A c1 v * countKeyStr B c2 v := by
  have hok := mergeOk_of_strKeys A c1 B c2 hA hB
  have hmatch : compareMatched A c1 B c2 =
      joinPairs (keyIdx A c1) (keyIdx B c2) valEq A.rows B.rows := by
    rw [compareMatched, if_pos hok]
  have hAk := allStrKeys_key A c1 hA
  have hBk := allStrKeys_key B c2 hB
  constructor
  · intro v
    rw [hmatch]
    exact joinPairs_countP _ _ _ v hBk A.rows hAk
  · rw [hmatch, joinPairs_length]
    have hmap : A.rows.map (fun a =>
          B.rows.countP (fun b =>
            valEq (keyOf a (keyIdx A c1)) (keyOf b (keyIdx B c2)))) =
        (keyStrs A c1).map (fun s => countKeyStr B c2 s) := by
      rw [keyStrs, List.map_map]
      refine List.map_congr_left ?_
      intro a ha
      obtain ⟨s, hs⟩ := hAk a ha
      simp only [Function.comp, hs, countKeyStr]
      refine List.countP_congr ?_
      intro b hb
      obtain ⟨t, ht⟩ := hBk b hb
      rw [ht, vStr_beq]
      simp only [valEq, pyStr]
      rw [strBeqComm]
    rw [hmap, Finset.sum_list_map_count]
    refine Finset.sum_congr rfl ?_
    intro v hv
    rw [smul_eq_mul]
    congr 1
    rw [List.count_eq_countP, keyStrs, List.countP_map, countKeyStr]
    refine List.countP_congr ?_
    intro a ha
    obtain ⟨s, hs⟩ := hAk a ha
    simp only [Function.comp, hs, pyStr, vStr_beq]

/-- Witness for `c3_inner_join_counts` on the spec's compare scenario:
the key `"x"` occurs once in A and twice in B, and the matched set
contains exactly 1 × 2 rows with left key `"x"`. -/
theorem c3_inner_join_counts_witness :
    allStrKeys cA3 "k" = true ∧ allStrKeys cB3 "k" = true ∧
    (compareMatched cA3 "k" cB3 "k").countP
        (fun p => keyOf p.1 (keyIdx cA3 "k") == Value.vStr "x") =
      countKeyStr cA3 "k" "x" * countKeyStr cB3 "k" "x" :=
  ⟨by decide, by decide,
    (c3_inner_join_counts cA3 "k" cB3 "k" (by decide) (by decide)).1 "x"⟩

/-! ## Claim C2, amended: the partition property -/

theorem allTrimStrKeys_key (f : Frame) (c : String)
    (h : allTrimStrKeys f c = true) :
    ∀ r ∈ f.rows, ∃ s, keyOf r (keyIdx f c) = Value.vStr s ∧
      pyStrip s = s ∧ trimKey f c r = s := by
  intro r hr
  have hc := List.all_eq_true.mp h r hr
  rw [Bool.and_eq_true] at hc
  obtain ⟨h1, h2⟩ := hc
  cases hk : keyOf r (keyIdx f c) with
  | vStr s =>
    rw [hk] at h2
    have h3 : pyStrip s = s := by
      have := beq_iff_eq.mp h2
      simpa [pyStr] using this
    exact ⟨s, rfl, h3, by rw [trimKey, hk]; simpa [pyStr] using h3⟩
  | vInt n => rw [hk] at h1; simp [isStrV] at h1
  | vFloat n => rw [hk] at h1; simp [isStrV] at h1
  | vDate d => rw [hk] at h1; simp [isStrV] at h1
  | vNaN => rw [hk] at h1; simp [isStrV] at h1

theorem allStrKeys_of_trim (f : Frame) (c : String)
    (h : allTrimStrKeys f c = true) : allStrKeys f c = true := by
  refine List.all_eq_true.mpr ?_
  intro r hr
  exact (Bool.and_eq_true _ _ |>.mp (List.all_eq_true.mp h r hr)).1

theorem strContains_iff (l : List String) (s : String) :
    l.contains s = true ↔ s ∈ l := by
  rw [List.contains_iff_exists_mem_beq]
  constructor
  · rintro ⟨t, ht, hst⟩
    rwa [beq_iff_eq.mp hst]
  · intro hs
    exact ⟨s, hs, by simp⟩

theorem matchedKeys1_contains (A : Frame) (c1 : String) (B : Frame) (c2 : String)
    (hA : allTrimStrKeys A c1 = true) (hB : allTrimStrKeys B c2 = true) :
    ∀ a ∈ A.rows,
      (matchedKeys1 A c1 B c2).contains (trimKey A c1 a) =
        (trimKeys B c2).contains (trimKey A c1 a) := by
  have hok := mergeOk_of_strKeys A c1 B c2 (allStrKeys_of_trim A c1 hA)
    (allStrKeys_of_trim B c2 hB)
  have hmatch : compareMatched A c1 B c2 =
      joinPairs (keyIdx A c1) (keyIdx B c2) valEq A.rows B.rows := by
    rw [compareMatched, if_pos hok]
  intro a ha
  apply Bool.eq_iff_iff.mpr
  rw [strContains_iff, strContains_iff]
  obtain ⟨s, hsa, _, htks⟩ := allTrimStrKeys_key A c1 hA a ha
  constructor
  · intro hmem
    obtain ⟨p, hp, hkey⟩ := List.mem_map.mp hmem
    rw [hmatch] at hp
    obtain ⟨hpa, hpb, heq⟩ := (mem_joinPairs _ _ _ _ _ p).mp hp
    obtain ⟨s1, hs1, _, htk1⟩ := allTrimStrKeys_key A c1 hA p.1 hpa
    obtain ⟨t1, ht1, _, htkt⟩ := allTrimStrKeys_key B c2 hB p.2 hpb
    rw [hs1, ht1] at heq
    have hst : s1 = t1 := by simpa [valEq] using heq
    refine List.mem_map.mpr ⟨p.2, hpb, ?_⟩
    rw [htkt, ← hst, ← htk1, hkey]
  · intro hmem
    obtain ⟨b, hb, hkey⟩ := List.mem_map.mp hmem
    obtain ⟨t, htb, _, htkt⟩ := allTrimStrKeys_key B c2 hB b hb
    have hts : t = s := by rw [← htkt, hkey, htks]
    refine List.mem_map.mpr ⟨(a, b), ?_, rfl⟩
    rw [hmatch]
    refine (mem_joinPairs _ _ _ _ _ _).mpr ⟨ha, hb, ?_⟩
    rw [hsa, htb, hts]
    simp [valEq]

theorem matchedKeys2_contains (A : Frame) (c1 : String) (B : Frame) (c2 : String)
    (hA : allTrimStrKeys A c1 = true) (hB : allTrimStrKeys B c2 = true) :
    ∀ b ∈ B.rows,
      (matchedKeys2 A c1 B c2).contains (trimKey B c2 b) =
        (trimKeys A c1).contains (trimKey B c2 b) := by
  have hok := mergeOk_of_strKeys A c1 B c2 (allStrKeys_of_trim A c1 hA)
    (allStrKeys_of_trim B c2 hB)
  have hmatch : compareMatched A c1 B c2 =
      joinPairs (keyIdx A c1) (keyIdx B c2) valEq A.rows B.rows := by
    rw [compareMatched, if_pos hok]
  intro b hb
  apply Bool.eq_iff_iff.mpr
  rw [strContains_iff, strContains_iff]
  obtain ⟨t, htb, _, htkt⟩ := allTrimStrKeys_key B c2 hB b hb
  constructor
  · intro hmem
    obtain ⟨p, hp, hkey⟩ := List.mem_map.mp hmem
    rw [hmatch] at hp
    obtain ⟨hpa, hpb, heq⟩ := (mem_joinPairs _ _ _ _ _ p).mp hp
    obtain ⟨s1, hs1, _, htk1⟩ := allTrimStrKeys_key A c1 hA p.1 hpa
    obtain ⟨t1, ht1, _, htk2⟩ := allTrimStrKeys_key B c2 hB p.2 hpb
    rw [hs1, ht1] at heq
    have hst : s1 = t1 := by simpa [valEq] using heq
    refine List.mem_map.mpr ⟨p.1, hpa, ?_⟩
    rw [htk1, hst, ← htk2, hkey]
  · intro hmem
    obtain ⟨a, ha, hkey⟩ := List.mem_map.mp hmem
    obtain ⟨s, hsa, _, htks⟩ := allTrimStrKeys_key A c1 hA a ha
    have hst : s = t := by rw [← htks, hkey, htkt]
    refine List.mem_map.mpr ⟨(a, b), ?_, rfl⟩
    rw [hmatch]
    refine (mem_joinPairs _ _ _ _ _ _).mpr ⟨ha, hb, ?_⟩
    rw [hsa, htb, hst]
    simp [valEq]

/-- C2, amended: the partition property holds when every key value in
both key columns is a string unaffected by whitespace trimming — then
unmatched-left together with the rows of A whose trimmed stringified key
appears in the matched set reconstructs A exactly (no row in both
parts, none missing); symmetrically for B.  In general the raw merge
and the trimmed-string unmatched sets disagree (see the counterexample),
so the hypothesis cannot be dropped. -/
theorem c2_amended (A : Frame) (c1 : String) (B : Frame) (c2 : String)
    (hA : allTrimStrKeys A c1 = true) (hB : allTrimStrKeys B c2 = true) :
    List.Perm (only1 A c1 B c2 ++ matchedPart1 A c1 B c2) A.rows ∧
    (∀ a, ¬(a ∈ only1 A c1 B c2 ∧ a ∈ matchedPart1 A c1 B c2)) ∧
    List.Perm (only2 A c1 B c2 ++ matchedPart2 A c1 B c2) B.rows ∧
    (∀ b, ¬(b ∈ only2 A c1 B c2 ∧ b ∈ matchedPart2 A c1 B c2)) := by
  have hpart1 : matchedPart1 A c1 B c2 =
      A.rows.filter (fun a => (trimKeys B c2).contains (trimKey A c1 a)) :=
    List.filter_congr (fun a ha => matchedKeys1_contains A c1 B c2 hA hB a ha)
  have hpart2 : matchedPart2 A c1 B c2 =
      B.rows.filter (fun b => (trimKeys A c1).contains (trimKey B c2 b)) :=
    List.filter_congr (fun b hb => matchedKeys2_contains A c1 B c2 hA hB b hb)
  refine ⟨?_, ?_, ?_, ?_⟩
  · rw [hpart1, only1]
    exact List.perm_append_comm.trans
      (List.filter_append_perm
        (fun a => (trimKeys B c2).contains (trimKey A c1 a)) A.rows)
  · rintro a ⟨h1, h2⟩
    rw [hpart1] at h2
    have hb1 := (List.mem_filter.mp h1).2
    have hb2 := (List.mem_filter.mp h2).2
    rw [hb2] at hb1
    simp at hb1
  · rw [hpart2, only2]
    exact List.perm_append_comm.trans
      (List.filter_append_perm
        (fun b => (trimKeys A c1).contains (trimKey B c2 b)) B.rows)
  · rintro b ⟨h1, h2⟩
    rw [hpart2] at h2
    have hb1 := (List.mem_filter.mp h1).2
    have hb2 := (List.mem_filter.mp h2).2
    rw [hb2] at hb1
    simp at hb1

/-- Witness for `c2_amended` on the spec's compare scenario, whose keys
are trim-invariant strings. -/
theorem c2_amended_witness :
    allTrimStrKeys cA3 "k" = true ∧ allTrimStrKeys cB3 "k" = true ∧
    List.Perm (only1 cA3 "k" cB3 "k" ++ matchedPart1 cA3 "k" cB3 "k")
      cA3.rows :=
  ⟨by decide, by decide,
    (c2_amended cA3 "k" cB3 "k" (by decide) (by decide)).1⟩

/-! ## Claim C10, amended -/

/-- C10, amended: missing cells are coerced to the string `"nan"`
before comparison in BOTH lookup modes — a query trimming to `"nan"`
returns the missing-valued rows in Exact mode, and the query `"nan"`
returns them in Partial mode as well (the `na=False` guard is dead code
because `astype(str)` has already eliminated the missing values). -/
theorem c10_amended (f : Frame) (c : String) (val : String)
    (hval : pyStrip val = "nan") :
    ∀ r ∈ f.rows, keyOf r (keyIdx f c) = Value.vNaN →
      r ∈ (lookupFind f c val MatchMode.exact).getD [] ∧
      r ∈ (lookupFind f c "nan" MatchMode.substr).getD [] := by
  intro r hr hk
  constructor
  · simp only [lookupFind, Option.getD_some]
    refine List.mem_filter.mpr ⟨hr, ?_⟩
    rw [hk, hval]
    decide
  · have hre : parseRegex "nan" = some (litRE "nan".data) := by decide
    simp only [lookupFind, hre, Option.getD_some]
    refine List.mem_filter.mpr ⟨hr, ?_⟩
    rw [hk]
    decide

/-- Witness for `c10_amended` at a concrete one-row frame with a
missing cell. -/
theorem c10_amended_witness :
    pyStrip "nan" = "nan" ∧
    ([Value.vNaN] ∈ (lookupFind cT10 "c" "nan" MatchMode.exact).getD [] ∧
     [Value.vNaN] ∈ (lookupFind cT10 "c" "nan" MatchMode.substr).getD []) :=
  ⟨by decide, c10_amended cT10 "c" "nan" (by decide) [Value.vNaN]
    (List.mem_cons_self _ _) rfl⟩

/-! ## Claim C7: the cell edit never fails and edits one cell -/

theorem getD_set_self {α : Type _} :
    ∀ (l : List α) (j : Nat) (x d : α), j < l.length → (l.set j x).getD j d = x := by
  intro l
  induction l with
  | nil => intro j x d h; simp at h
  | cons a t ih =>
    intro j x d h
    cases j with
    | zero => rfl
    | succ j => exact ih j x d (Nat.lt_of_succ_lt_succ h)

theorem getD_set_ne {α : Type _} :
    ∀ (l : List α) (j k : Nat) (x d : α), j ≠ k →
      (l.set j x).getD k d = l.getD k d := by
  intro l
  induction l with
  | nil => intro j k x d h; rfl
  | cons a t ih =>
    intro j k x d h
    cases j with
    | zero =>
      cases k with
      | zero => exact absurd rfl h
      | succ k => rfl
    | succ j =>
      cases k with
      | zero => rfl
      | succ k => exact ih j k x d (fun e => h (congrArg Nat.succ e))

/-- C7: the cell edit is total (the model is a function — every parse
failure falls back to the literal text, mirroring the `except` arm):
on a numeric column, reading the cell back yields the numeric parse
when it succeeds and the literal input string when it fails; likewise
on a datetime column with the date parse; on any other column the
literal string is stored; the schema and the row count are unchanged,
and every other cell is untouched. -/
theorem c7_setcell (parseNum parseDate : String → Option Value) (f : Frame)
    (rowIdx : Nat) (c : String) (val : String)
    (hrow : rowIdx < f.rows.length)
    (hcell : keyIdx f c < (f.rows.getD rowIdx []).length) :
    (isNumericDType (colDType (colOf f c)) = true →
      (∀ w, parseNum val = some w →
        cellAt (doSave parseNum parseDate f rowIdx c val) rowIdx (keyIdx f c) = w) ∧
      (parseNum val = none →
        cellAt (doSave parseNum parseDate f rowIdx c val) rowIdx (keyIdx f c) =
          Value.vStr val)) ∧
    (colDType (colOf f c) = DType.datetime →
      (∀ w, parseDate val = some w →
        cellAt (doSave parseNum parseDate f rowIdx c val) rowIdx (keyIdx f c) = w) ∧
      (parseDate val = none →
        cellAt (doSave parseNum parseDate f rowIdx c val) rowIdx (keyIdx f c) =
          Value.vStr val)) ∧
    (isNumericDType (colDType (colOf f c)) = false →
      colDType (colOf f c) ≠ DType.datetime →
      cellAt (doSave parseNum parseDate f rowIdx c val) rowIdx (keyIdx f c) =
        Value.vStr val) ∧
    ((doSave parseNum parseDate f rowIdx c val).cols = f.cols ∧
     (doSave parseNum parseDate f rowIdx c val).rows.length = f.rows.length) ∧
    (∀ j i, j ≠ rowIdx ∨ i ≠ keyIdx f c →
      cellAt (doSave parseNum parseDate f rowIdx c val) j i = cellAt f j i) := by
  have hset : ∀ v : Value,
      cellAt (setAt f rowIdx (keyIdx f c) v) rowIdx (keyIdx f c) = v := by
    intro v
    show ((f.rows.set rowIdx ((f.rows.getD rowIdx []).set (keyIdx f c) v)).getD
        rowIdx []).getD (keyIdx f c) Value.vNaN = v
    rw [getD_set_self _ _ _ _ hrow, getD_set_self _ _ _ _ hcell]
  refine ⟨?_, ?_, ?_, ?_, ?_⟩
  · intro hnum
    constructor
    · intro w hw
      rw [doSave]
      simp only [hnum, if_true, hw, Option.getD_some]
      exact hset w
    · intro hw
      rw [doSave]
      simp only [hnum, if_true, hw, Option.getD_none]
      exact hset _
  · intro hdt
    have hnum : isNumericDType (colDType (colOf f c)) = false := by
      rw [hdt]; rfl
    constructor
    · intro w hw
      rw [doSave]
      simp only [hnum, Bool.false_eq_true, if_false, hdt, if_true, hw,
        Option.getD_some]
      exact hset w
    · intro hw
      rw [doSave]
      simp only [hnum, Bool.false_eq_true, if_false, hdt, if_true, hw,
        Option.getD_none]
      exact hset _
  · intro hnum hdt
    rw [doSave]
    simp only [hnum, Bool.false_eq_true, if_false, if_neg hdt]
    exact hset _
  · exact ⟨rfl, by simp [doSave, setAt]⟩
  · intro j i hji
    show ((f.rows.set rowIdx _).getD j []).getD i Value.vNaN =
      (f.rows.getD j []).getD i Value.vNaN
    rcases hji with hj | hi
    · rw [getD_set_ne _ _ _ _ _ (fun e => hj e.symm)]
    · by_cases hj : j = rowIdx
      · subst hj
        rw [getD_set_self _ _ _ _ hrow, getD_set_ne _ _ _ _ _ (fun e => hi e.symm)]
      · rw [getD_set_ne _ _ _ _ _ (fun e => hj e.symm)]

/-- Witness for `c7_setcell` on a concrete frame: editing the numeric
cell (0, `"n"`) with the parseable text `"5"` stores the parsed value,
and with the unparseable text `"zz"` stores the literal string. -/
theorem c7_setcell_witness :
    0 < cF7.rows.length ∧ keyIdx cF7 "n" < (cF7.rows.getD 0 []).length ∧
    cellAt (doSave (fun t => if t = "5" then some (Value.vInt 5) else none)
        (fun _ => none) cF7 0 "n" "5") 0 (keyIdx cF7 "n") = Value.vInt 5 :=
  ⟨by decide, by decide,
    ((c7_setcell (fun t => if t = "5" then some (Value.vInt 5) else none)
        (fun _ => none) cF7 0 "n" "5" (by decide) (by decide)).1
      (by decide)).1 (Value.vInt 5) rfl⟩

/-! ## Claim C8: the export gateway -/

theorem pyTake_length_le (n : Nat) (s : String) : (pyTake n s).length ≤ n := by
  show (s.data.take n).length ≤ n
  rw [List.length_take]
  exact inf_le_left

/-- C8: every sheet write attempted by `save_multiple_sheets` uses the
sheet name truncated to at most 31 characters, and — provided the
coerced retries succeed — the attempt trace consists, sheet by sheet,
of the single truncated-name write when it succeeds and of exactly one
retry with every cell coerced to text when it fails. -/
theorem c8_save_sheets (fails : Frame → Bool) (sheets : List (String × Frame))
    (hretry : ∀ s ∈ sheets, fails (coerceAllStr s.2) = false) :
    (saveMultipleSheets fails sheets).1 = sheets.flatMap (sheetBlock fails) ∧
    (saveMultipleSheets fails sheets).2 = true ∧
    ∀ a ∈ (saveMultipleSheets fails sheets).1,
      a.1.length ≤ 31 ∧ ∃ s ∈ sheets, a.1 = pyTake 31 s.1 := by
  induction sheets with
  | nil => exact ⟨rfl, rfl, by intro a ha; simp [saveMultipleSheets] at ha⟩
  | cons s rest ih =>
    obtain ⟨n, fr⟩ := s
    have hr := hretry (n, fr) (List.mem_cons_self _ _)
    obtain ⟨ih1, ih2, ih3⟩ := ih (fun t ht => hretry t (List.mem_cons_of_mem _ ht))
    by_cases hf : fails fr = true
    · have htrace : saveMultipleSheets fails ((n, fr) :: rest) =
          ((pyTake 31 n, fr) :: (pyTake 31 n, coerceAllStr fr) ::
              (saveMultipleSheets fails rest).1,
            (saveMultipleSheets fails rest).2) := by
        rw [saveMultipleSheets]
        simp only [hf, if_true, hr, Bool.false_eq_true, if_false]
      refine ⟨?_, ?_, ?_⟩
      · rw [htrace, List.flatMap_cons, ← ih1, sheetBlock, if_pos hf]
        rfl
      · rw [htrace]
        exact ih2
      · intro a ha
        rw [htrace] at ha
        rcases List.mem_cons.mp ha with rfl | ha1
        · exact ⟨pyTake_length_le 31 n, (n, fr), List.mem_cons_self _ _, rfl⟩
        rcases List.mem_cons.mp ha1 with rfl | ha2
        · exact ⟨pyTake_length_le 31 n, (n, fr), List.mem_cons_self _ _, rfl⟩
        · obtain ⟨hlen, t, ht, hteq⟩ := ih3 a ha2
          exact ⟨hlen, t, List.mem_cons_of_mem _ ht, hteq⟩
    · have hf0 : fails fr = false := Bool.not_eq_true _ ▸ hf
      have htrace : saveMultipleSheets fails ((n, fr) :: rest) =
          ((pyTake 31 n, fr) :: (saveMultipleSheets fails rest).1,
            (saveMultipleSheets fails rest).2) := by
        rw [saveMultipleSheets]
        simp only [hf0, Bool.false_eq_true, if_false]
      refine ⟨?_, ?_, ?_⟩
      · rw [htrace, List.flatMap_cons, ← ih1, sheetBlock, if_neg (by simp [hf0])]
        rfl
      · rw [htrace]
        exact ih2
      · intro a ha
        rw [htrace] at ha
        rcases List.mem_cons.mp ha with rfl | ha1
        · exact ⟨pyTake_length_le 31 n, (n, fr), List.mem_cons_self _ _, rfl⟩
        · obtain ⟨hlen, t, ht, hteq⟩ := ih3 a ha1
          exact ⟨hlen, t, List.mem_cons_of_mem _ ht, hteq⟩

/-- Witness for `c8_save_sheets`: one sheet with a 48-character name
and a non-string cell, under a failure oracle that rejects frames with
non-string cells; the coerced retry succeeds and the whole save
reports success. -/
theorem c8_save_sheets_witness :
    (∀ s ∈ [("AVeryLongSheetNameThatExceedsThirtyOneCharacters",
        (⟨["a"], [[Value.vInt 5]]⟩ : Frame))],
      (fun fr : Frame => fr.rows.any (fun r => r.any (fun v => !isStrV v)))
        (coerceAllStr s.2) = false) ∧
    (saveMultipleSheets
        (fun fr : Frame => fr.rows.any (fun r => r.any (fun v => !isStrV v)))
        [("AVeryLongSheetNameThatExceedsThirtyOneCharacters",
          (⟨["a"], [[Value.vInt 5]]⟩ : Frame))]).2 = true :=
  ⟨by decide,
    (c8_save_sheets
      (fun fr : Frame => fr.rows.any (fun r => r.any (fun v => !isStrV v)))
      [("AVeryLongSheetNameThatExceedsThirtyOneCharacters",
        (⟨["a"], [[Value.vInt 5]]⟩ : Frame))] (by decide)).2.1⟩

/-! ## Claim C6, amended: regex semantics of literal patterns -/

theorem reMatchInit_alt (t : List Char) :
    ∀ a b : RE, reMatchInit (RE.alt a b) t = (reMatchInit a t || reMatchInit b t) := by
  induction t with
  | nil => intro a b; simp [reMatchInit, reNullable]
  | cons c cs ih =>
    intro a b
    simp only [reMatchInit, reNullable, reDeriv, ih]
    cases reNullable a <;> cases reNullable b <;>
      cases reMatchInit (reDeriv a c) cs <;> simp

theorem reMatchInit_seq_nul (t : List Char) :
    ∀ r : RE, reMatchInit (RE.seq RE.nul r) t = false := by
  induction t with
  | nil => intro r; simp [reMatchInit, reNullable]
  | cons c cs ih =>
    intro r
    simp [reMatchInit, reNullable, reDeriv, ih]

theorem reMatchInit_seq_eps (t : List Char) :
    ∀ r : RE, reMatchInit (RE.seq RE.eps r) t = reMatchInit r t := by
  induction t with
  | nil => intro r; simp [reMatchInit, reNullable]
  | cons c cs _ =>
    intro r
    simp only [reMatchInit, reNullable, reDeriv, Bool.true_and, if_true]
    rw [reMatchInit_alt, reMatchInit_seq_nul]
    simp

theorem reMatchInit_lit :
    ∀ (q t : List Char), reMatchInit (litRE q) t = ciInit q t := by
  intro q
  induction q with
  | nil =>
    intro t
    cases t <;> simp [litRE, reMatchInit, reNullable, ciInit]
  | cons c q ih =>
    intro t
    cases t with
    | nil => simp [litRE, reMatchInit, reNullable, ciInit]
    | cons d t =>
      have hstep : reMatchInit (litRE (c :: q)) (d :: t) =
          reMatchInit (RE.seq (if chEq c d = true then RE.eps else RE.nul)
            (litRE q)) t := by
        simp [litRE, reMatchInit, reNullable, reDeriv]
      have hrhs : ciInit (c :: q) (d :: t) = (chEq c d && ciInit q t) := rfl
      rw [hstep, hrhs]
      by_cases hc : chEq c d = true
      · have he : (if chEq c d = true then RE.eps else RE.nul) = RE.eps := by
          rw [hc]; rfl
        rw [he, reMatchInit_seq_eps, ih, hc, Bool.true_and]
      · have hc0 : chEq c d = false := Bool.not_eq_true _ ▸ hc
        have he : (if chEq c d = true then RE.eps else RE.nul) = RE.nul := by
          rw [hc0]; rfl
        rw [he, reMatchInit_seq_nul, hc0, Bool.false_and]

theorem reSearch_lit : ∀ (q t : List Char), reSearch (litRE q) t = ciContains q t := by
  intro q t
  induction t with
  | nil => simp [reSearch, ciContains, reMatchInit_lit]
  | cons c cs ih => simp [reSearch, ciContains, reMatchInit_lit, ih]

theorem notMeta_ne (c d : Char) (h : isMetaChar c = false)
    (hd : isMetaChar d = true) : c ≠ d := by
  intro e
  rw [e, hd] at h
  exact absurd h (by decide)

theorem parseCat_lit :
    ∀ (cs : List Char) (fuel : Nat), (∀ c ∈ cs, isMetaChar c = false) →
      cs.length + 1 ≤ fuel → parseCat fuel cs = some (litRE cs, []) := by
  intro cs
  induction cs with
  | nil =>
    intro fuel _ hfuel
    cases fuel with
    | zero => omega
    | succ m =>
      show parseCat (m + 1) [] = some (RE.eps, [])
      rw [parseCat]
      omega
  | cons c cs ih =>
    intro fuel hmeta hfuel
    have hc := hmeta c (List.mem_cons_self _ _)
    cases fuel with
    | zero => simp at hfuel
    | succ m =>
      have hm : cs.length + 1 ≤ m := by
        simp only [List.length_cons] at hfuel
        omega
      have hnotcp : ¬(c = ')' ∨ c = '|') := by
        rintro (e | e)
        · exact notMeta_ne c ')' hc (by decide) e
        · exact notMeta_ne c '|' hc (by decide) e
      rw [parseCat]
      simp only [if_neg hnotcp]
      cases m with
      | zero => omega
      | succ k =>
        have hatom : parseAtom (k + 1) (c :: cs) = some (RE.chr c, cs) := by
          rw [parseAtom]
          simp only [if_neg (notMeta_ne c '(' hc (by decide)),
            if_neg (notMeta_ne c '.' hc (by decide)), hc, Bool.false_eq_true,
            if_false]
        have hquant : applyQuant (RE.chr c) cs = (RE.chr c, cs) := by
          cases cs with
          | nil => rfl
          | cons d t =>
            have hd := hmeta d (List.mem_cons_of_mem _ (List.mem_cons_self _ _))
            rw [applyQuant]
            simp only [if_neg (notMeta_ne d '*' hd (by decide)),
              if_neg (notMeta_ne d '+' hd (by decide)),
              if_neg (notMeta_ne d '?' hd (by decide))]
        rw [hatom]
        simp only [hquant]
        rw [ih (k + 1) (fun x hx => hmeta x (List.mem_cons_of_mem _ hx)) hm]
        rfl

theorem parseRegex_lit (q : String) (h : noMetaStr q = true) :
    parseRegex q = some (litRE q.data) := by
  have hmeta : ∀ c ∈ q.data, isMetaChar c = false := by
    intro c hc
    have := List.all_eq_true.mp h c hc
    simpa using this
  rw [parseRegex]
  have hcat : parseCat (2 * q.data.length + 3) q.data = some (litRE q.data, []) :=
    parseCat_lit q.data (2 * q.data.length + 3) hmeta (by omega)
  have halt : parseAlt (2 * q.data.length + 4) q.data = some (litRE q.data, []) := by
    rw [show 2 * q.data.length + 4 = (2 * q.data.length + 3) + 1 from rfl, parseAlt,
      hcat]
  rw [halt]

theorem ciInit_append (q post : List Char) : ciInit q (q ++ post) = true := by
  induction q with
  | nil => rfl
  | cons c q ih => simp [ciInit, chEq, ih]

theorem ciContains_nil (t : List Char) : ciContains [] t = true := by
  cases t <;> simp [ciContains, ciInit]

theorem ciContains_append (pre q post : List Char) :
    ciContains q (pre ++ (q ++ post)) = true := by
  induction pre with
  | nil =>
    simp only [List.nil_append]
    cases q with
    | nil => exact ciContains_nil post
    | cons c q1 =>
      rw [List.cons_append, ciContains, ← List.cons_append, ciInit_append]
      simp
  | cons c pre ih =>
    rw [List.cons_append, ciContains, ih]
    simp

theorem stripChars_decomp (l : List Char) :
    ∃ pre post, l = pre ++ (stripChars l ++ post) := by
  refine ⟨l.takeWhile isWS,
    ((l.dropWhile isWS).reverse.takeWhile isWS).reverse, ?_⟩
  have h2 : l.dropWhile isWS =
      ((l.dropWhile isWS).reverse.dropWhile isWS).reverse ++
        ((l.dropWhile isWS).reverse.takeWhile isWS).reverse :=
    calc l.dropWhile isWS
        = (l.dropWhile isWS).reverse.reverse := (List.reverse_reverse _).symm
      _ = ((l.dropWhile isWS).reverse.takeWhile isWS ++
            (l.dropWhile isWS).reverse.dropWhile isWS).reverse := by
          rw [List.takeWhile_append_dropWhile]
      _ = ((l.dropWhile isWS).reverse.dropWhile isWS).reverse ++
            ((l.dropWhile isWS).reverse.takeWhile isWS).reverse :=
          List.reverse_append _ _
  calc l = l.takeWhile isWS ++ l.dropWhile isWS := by
        rw [List.takeWhile_append_dropWhile]
    _ = l.takeWhile isWS ++ (stripChars l ++
          ((l.dropWhile isWS).reverse.takeWhile isWS).reverse) := by
        rw [stripChars, ← h2]

/-- C6, amended: Exact matches are also Partial matches whenever the
query carries no surrounding whitespace and no regex special
characters — then the Exact hit's trimmed cell equals the query, which
therefore occurs in the raw cell string and is found by the
case-insensitive regex search.  (Trimming or metacharacters in the
query break the containment; see the counterexample.) -/
theorem c6_amended (f : Frame) (c : String) (q : String)
    (hmeta : noMetaStr q = true) (htrim : pyStrip q = q) :
    ∀ r ∈ (lookupFind f c q MatchMode.exact).getD [],
      r ∈ (lookupFind f c q MatchMode.substr).getD [] := by
  intro r hr
  simp only [lookupFind, Option.getD_some] at hr
  obtain ⟨hrm, hpred⟩ := List.mem_filter.mp hr
  have hstr : pyStrip (pyStr (keyOf r (keyIdx f c))) = q := by
    have h1 := beq_iff_eq.mp hpred
    rwa [htrim] at h1
  have hdata : stripChars (pyStr (keyOf r (keyIdx f c))).data = q.data :=
    congrArg String.data hstr
  obtain ⟨pre, post, hdecomp⟩ :=
    stripChars_decomp (pyStr (keyOf r (keyIdx f c))).data
  rw [hdata] at hdecomp
  have hsearch :
      reSearch (litRE q.data) (pyStr (keyOf r (keyIdx f c))).data = true := by
    rw [reSearch_lit, hdecomp]
    exact ciContains_append pre q.data post
  simp only [lookupFind, parseRegex_lit q hmeta, Option.getD_some]
  exact List.mem_filter.mpr ⟨hrm, hsearch⟩

/-- Witness for `c6_amended`: the trim-invariant, metacharacter-free
query `"x"` Exact-matches the cell `"x"` and is indeed returned by the
Partial lookup as well. -/
theorem c6_amended_witness :
    noMetaStr "x" = true ∧ pyStrip "x" = "x" ∧
    [Value.vStr "x"] ∈ (lookupFind cT6 "c" "x" MatchMode.substr).getD [] :=
  ⟨by decide, by decide,
    c6_amended cT6 "c" "x" (by decide) (by decide) [Value.vStr "x"] (by decide)⟩

end ExcelTool
